import Mathlib

/-!
Verification of the RFM sales-analysis pipeline
(`salesperformancetrendanalysis.py`).

The pipeline is a linear batch job: load and clean transaction rows
(`clean_and_prepare_data`), aggregate per-customer
Recency/Frequency/Monetary metrics and score them by quintile cuts
(`perform_rfm_analysis`), and write three charts plus the final table
(`plot_and_save_analysis` and `__main__`).

Shallow embedding conventions:
* Timestamps (`InvoiceDate`) are integers counting minutes since an
  arbitrary epoch; one day is 1440 minutes, matching
  `pd.Timedelta(days=1)` and `Timedelta.days` (floor division).
* Quantities are integers, unit prices and derived revenue are exact
  rationals (the Python floats are treated as exact numbers).
* A missing `CustomerID` (NaN) is `Option.none`.
* `pd.qcut(col, 5, labels := ...)` is modelled exactly: quantile bin
  edges at 0, 0.2, ..., 1.0 with numpy linear interpolation on the
  sorted column, a raised `ValueError` (modelled as `Option.none`) when
  edges collide, and assignment of each value to the first bin whose
  right edge is at or above it (pandas right-closed intervals with the
  minimum included in the first bin).
* `Series.rank(method := "first")` is modelled exactly: the rank of an
  entry is 1 + (number of strictly smaller entries) + (number of equal
  entries appearing earlier).
* File I/O: the input file is `Option (List RawRow)` (`none` = absent
  file, raising `FileNotFoundError`), and the reporter/`__main__` stage
  is summarised by the list of artifact filenames it writes.
* `groupby` sorts its keys ascending, as pandas does by default.
-/

namespace SalesRFM

/-- One raw CSV row of the input file (`Online_Retail.csv`):
invoice number, product description, quantity, unit price, invoice
timestamp (minutes), and a possibly missing customer id. -/
structure RawRow where
  invoiceNo : ℕ
  description : String
  quantity : ℤ
  unitPrice : ℚ
  invoiceDate : ℤ
  customerId : Option ℤ
deriving DecidableEq, Repr

/-- A cleaned row: customer id present and integral, plus the derived
`Sales` column. -/
structure CleanRow where
  invoiceNo : ℕ
  description : String
  quantity : ℤ
  unitPrice : ℚ
  invoiceDate : ℤ
  customerId : ℤ
  sales : ℚ
deriving DecidableEq, Repr

/-- `df.dropna(subset := ["CustomerID"])` followed by
`astype(int)`: keep only rows whose customer id is present, pairing each
surviving row with its integral id. -/
def dropMissingId (rows : List RawRow) : List (RawRow × ℤ) :=
  rows.filterMap (fun r => (r.customerId).map (fun c => (r, c)))

/-- The cleaning body of `clean_and_prepare_data` (lines 26-40 of the
source): drop rows with a missing customer id, keep rows with
`Quantity > 0` and `UnitPrice > 0`, and derive
`Sales = Quantity * UnitPrice`. -/
def cleanRows (rows : List RawRow) : List CleanRow :=
  ((dropMissingId rows).filter
      (fun rc => decide (0 < rc.1.quantity) && decide (0 < rc.1.unitPrice))).map
    (fun rc =>
      { invoiceNo := rc.1.invoiceNo
        description := rc.1.description
        quantity := rc.1.quantity
        unitPrice := rc.1.unitPrice
        invoiceDate := rc.1.invoiceDate
        customerId := rc.2
        sales := (rc.1.quantity : ℚ) * rc.1.unitPrice })

/-- `clean_and_prepare_data`: `pd.read_csv` raises `FileNotFoundError`
when the file is absent, which the function catches and turns into a
`None` return; otherwise it cleans the rows. -/
def clean_and_prepare_data (file : Option (List RawRow)) : Option (List CleanRow) :=
  file.map cleanRows

/-- Minutes in one day (`pd.Timedelta(days=1)`). -/
def minutesPerDay : ℤ := 1440

/-- Maximum of a list of integers, `0` on the empty list (pandas would
give `NaT`/`NaN` there; the claims only use nonempty data). -/
def maxD : List ℤ → ℤ
  | [] => 0
  | [d] => d
  | d :: ds => max d (maxD ds)

/-- `df_cleaned["InvoiceDate"].max()`. -/
def maxInvoiceDate (rows : List CleanRow) : ℤ :=
  maxD (rows.map (fun r => r.invoiceDate))

/-- `snapshot_date = df_cleaned["InvoiceDate"].max() + pd.Timedelta(days=1)`. -/
def snapshotDate (rows : List CleanRow) : ℤ :=
  maxInvoiceDate rows + minutesPerDay

/-- The rows of one `groupby("CustomerID")` group. -/
def customerRows (rows : List CleanRow) (c : ℤ) : List CleanRow :=
  rows.filter (fun r => decide (r.customerId = c))

/-- `Recency = (snapshot_date - x.max()).days` for customer `c`
(`Timedelta.days` floors the quotient by one day). -/
def recencyOf (rows : List CleanRow) (c : ℤ) : ℤ :=
  (snapshotDate rows - maxInvoiceDate (customerRows rows c)).fdiv minutesPerDay

/-- `Frequency = ("InvoiceNo", "nunique")`: number of distinct invoice
numbers of customer `c`. -/
def frequencyOf (rows : List CleanRow) (c : ℤ) : ℕ :=
  (((customerRows rows c).map (fun r => r.invoiceNo)).dedup).length

/-- `Monetary = ("Sales", "sum")` for customer `c`. -/
def monetaryOf (rows : List CleanRow) (c : ℤ) : ℚ :=
  (((customerRows rows c).map (fun r => r.sales))).sum

/-- The group keys of `groupby("CustomerID")`, sorted ascending (pandas
sorts group keys by default). -/
def customersOf (rows : List CleanRow) : List ℤ :=
  List.insertionSort (· ≤ ·) ((rows.map (fun r => r.customerId)).dedup)

/-- One row of the aggregated `rfm` frame (before scoring). -/
structure RFMRow where
  customerId : ℤ
  recency : ℤ
  frequency : ℕ
  monetary : ℚ
deriving DecidableEq, Repr

/-- The aggregated `rfm` frame: one row per distinct customer id, in
ascending id order. -/
def rfmTable (rows : List CleanRow) : List RFMRow :=
  (customersOf rows).map (fun c =>
    { customerId := c
      recency := recencyOf rows c
      frequency := frequencyOf rows c
      monetary := monetaryOf rows c })

/-- Linear-interpolation quantile of an already sorted list at
probability `p`, exactly numpy's default interpolation:
with `h = p * (n - 1)`, interpolate between the entries at positions
`⌊h⌋` and `⌊h⌋ + 1`. -/
def quantileSorted (a : List ℚ) (p : ℚ) : ℚ :=
  let n := a.length
  let h : ℚ := p * ((n : ℚ) - 1)
  let j : ℕ := (⌊h⌋).toNat
  if j + 1 < n then a.getD j 0 + (h - (j : ℚ)) * (a.getD (j + 1) 0 - a.getD j 0)
  else a.getD (n - 1) 0

/-- The six quantile bin edges of `pd.qcut(xs, 5)`:
quantiles of the sorted data at 0, 0.2, 0.4, 0.6, 0.8, 1. -/
def qcutEdges (xs : List ℚ) : List ℚ :=
  (List.range 6).map (fun i : ℕ =>
    quantileSorted (List.insertionSort (· ≤ ·) xs) ((i : ℚ) / 5))

/-- Adjacent-strictness check of the (monotone) edge list: with
`duplicates := "raise"`, `pd.qcut` raises `ValueError` when two bin
edges coincide. -/
def strictlyIncreasing : List ℚ → Bool
  | [] => true
  | [_] => true
  | a :: b :: rest => decide (a < b) && strictlyIncreasing (b :: rest)

/-- The bin of value `v` among the 5 right-closed intervals delimited by
`edges`: the first bin whose right edge is at or above `v` (the
minimum value falls into bin 0, matching pandas `include_lowest`
adjustment of the leftmost edge). -/
def binIndex (edges : List ℚ) (v : ℚ) : ℕ :=
  (((List.range 5).find? (fun i => decide (v ≤ edges.getD (i + 1) 0))).getD 4)

/-- `pd.qcut(xs, 5, labels)` with `duplicates := "raise"`: `none` models
the raised `ValueError` on duplicate edges; on success every value is
mapped to the label of its bin. -/
def qcut (xs : List ℚ) (labels : List ℤ) : Option (List ℤ) :=
  if strictlyIncreasing (qcutEdges xs) then
    some (xs.map (fun v => labels.getD (binIndex (qcutEdges xs) v) 0))
  else none

/-- `Series.rank(method := "first")` at position `p`: one plus the
number of strictly smaller entries plus the number of equal entries at
earlier positions. -/
def rankAt (xs : List ℚ) (p : ℕ) : ℕ :=
  1 + xs.countP (fun y => decide (y < xs.getD p 0))
    + (xs.take p).countP (fun y => decide (y = xs.getD p 0))

/-- `Series.rank(method := "first")` of a whole column (pandas returns
float ranks `1.0, ..., n.0`). -/
def rankFirst (xs : List ℚ) : List ℚ :=
  (List.range xs.length).map (fun p => ((rankAt xs p : ℕ) : ℚ))

/-- `rfm["R_Score"] = pd.qcut(rfm["Recency"], 5, labels := [5,4,3,2,1])`. -/
def rScores (t : List RFMRow) : Option (List ℤ) :=
  qcut (t.map (fun r => ((r.recency : ℚ)))) [5, 4, 3, 2, 1]

/-- `rfm["F_Score"] = pd.qcut(rfm["Frequency"].rank(method := "first"), 5,
labels := [1,2,3,4,5])`. -/
def fScores (t : List RFMRow) : Option (List ℤ) :=
  qcut (rankFirst (t.map (fun r => ((r.frequency : ℚ))))) [1, 2, 3, 4, 5]

/-- `rfm["M_Score"] = pd.qcut(rfm["Monetary"], 5, labels := [1,2,3,4,5])`. -/
def mScores (t : List RFMRow) : Option (List ℤ) :=
  qcut (t.map (fun r => r.monetary)) [1, 2, 3, 4, 5]

/-- `segment_customer` (lines 68-76 of the source), applied to the total
score. -/
def segment_customer (score : ℤ) : String :=
  if score ≥ 13 then "Best Customers"
  else if score ≥ 10 then "Loyal Customers"
  else if score ≥ 6 then "Potential/At-Risk"
  else "Lost Customers"

/-- One row of the final scored `rfm` frame. -/
structure ScoredRow where
  base : RFMRow
  rScore : ℤ
  fScore : ℤ
  mScore : ℤ
  total : ℤ
  segment : String
deriving DecidableEq, Repr

/-- Scoring and segmentation part of `perform_rfm_analysis` (lines
59-78): the three quintile cuts, `RFM_Total_Score` as the sum of the
three scores, and the `Segment` column.  `none` models an uncaught
`ValueError` from any of the three cuts. -/
def scoreRFM (t : List RFMRow) : Option (List ScoredRow) :=
  match rScores t, fScores t, mScores t with
  | some rs, some fs, some ms =>
      some ((t.zip (rs.zip (fs.zip ms))).map (fun p =>
        { base := p.1
          rScore := p.2.1
          fScore := p.2.2.1
          mScore := p.2.2.2
          total := p.2.1 + p.2.2.1 + p.2.2.2
          segment := segment_customer (p.2.1 + p.2.2.1 + p.2.2.2) }))
  | _, _, _ => none

/-- `perform_rfm_analysis`: metrics aggregation followed by scoring and
segmentation. -/
def perform_rfm_analysis (rows : List CleanRow) : Option (List ScoredRow) :=
  scoreRFM (rfmTable rows)

/-- Monthly revenue sums of `plot_and_save_analysis` (3a), with the
calendar-month key `InvoiceDate.dt.to_period("M")` abstracted as an
arbitrary function `month` of the timestamp. -/
def monthlySales (month : ℤ → ℤ) (rows : List CleanRow) : List (ℤ × ℚ) :=
  (List.insertionSort (· ≤ ·) ((rows.map (fun r => month r.invoiceDate)).dedup)).map
    (fun k => (k, ((rows.filter (fun r => decide (month r.invoiceDate = k))).map
        (fun r => r.sales)).sum))

/-- Per-product revenue sums of `plot_and_save_analysis` (3b), keyed by
product description. -/
def productSales (rows : List CleanRow) : List (String × ℚ) :=
  (List.insertionSort (· ≤ ·) ((rows.map (fun r => r.description)).dedup)).map
    (fun d => (d, ((rows.filter (fun r => decide (r.description = d))).map
        (fun r => r.sales)).sum))

/-- The four artifact filenames written by a complete run, in write
order. -/
def allArtifacts : List String :=
  ["monthly_sales_trend.png", "top_10_products.png",
   "rfm_segmentation_pie.png", "rfm_segmentation_data.csv"]

/-- The `__main__` block, summarised by the list of files it writes: an
absent input file makes `clean_and_prepare_data` return `None` and the
run stops with no artifacts; an uncaught scoring failure also aborts
before any file is written; otherwise all four artifacts are written. -/
def runMain (file : Option (List RawRow)) : List String :=
  match clean_and_prepare_data file with
  | none => []
  | some rows =>
    match perform_rfm_analysis rows with
    | none => []
    | some _ => allArtifacts

/-- F_Score of customer `c` in a run over raw rows `rows`, when the run
succeeds and the customer is present. -/
def fScoreOf (rows : List RawRow) (c : ℤ) : Option ℤ :=
  (perform_rfm_analysis (cleanRows rows)).bind (fun t =>
    (t.find? (fun s => decide (s.base.customerId = c))).map (fun s => s.fScore))

/-- Rank of the four segment labels in increasing customer value,
used to state that segmentation is monotone in the total score. -/
def segmentRank : String → ℕ
  | "Potential/At-Risk" => 1
  | "Loyal Customers" => 2
  | "Best Customers" => 3
  | _ => 0

/-- Sample transaction: customer 1, invoice 1, day 0, revenue 1. -/
def sampleRow1 : RawRow :=
  { invoiceNo := 1, description := "A", quantity := 1, unitPrice := 1,
    invoiceDate := 0, customerId := some 1 }

/-- Sample transaction: customer 2, invoice 2, day 1, revenue 2. -/
def sampleRow2 : RawRow :=
  { invoiceNo := 2, description := "B", quantity := 1, unitPrice := 2,
    invoiceDate := 1440, customerId := some 2 }

/-- A two-customer dataset on which the whole pipeline succeeds. -/
def sampleRaw : List RawRow := [sampleRow1, sampleRow2]

/-- The cleaned form of `sampleRow1`. -/
def sampleClean1 : CleanRow :=
  { invoiceNo := 1, description := "A", quantity := 1, unitPrice := 1,
    invoiceDate := 0, customerId := 1, sales := 1 }

/-- The cleaned form of `sampleRow2`. -/
def sampleClean2 : CleanRow :=
  { invoiceNo := 2, description := "B", quantity := 1, unitPrice := 2,
    invoiceDate := 1440, customerId := 2, sales := 2 }

/-- RFM metrics of customer 1 in `sampleRaw`. -/
def sampleRFM1 : RFMRow := { customerId := 1, recency := 2, frequency := 1, monetary := 1 }

/-- RFM metrics of customer 2 in `sampleRaw`. -/
def sampleRFM2 : RFMRow := { customerId := 2, recency := 1, frequency := 1, monetary := 2 }

/-- Same transactions as `sampleRaw` but booked to customers 2 and 3:
customer 2 now sorts first among the frequency ties. -/
def altRaw : List RawRow :=
  [{ invoiceNo := 1, description := "A", quantity := 1, unitPrice := 1,
     invoiceDate := 0, customerId := some 2 },
   { invoiceNo := 2, description := "B", quantity := 1, unitPrice := 2,
     invoiceDate := 1440, customerId := some 3 }]

/-- A return row: quantity -3, otherwise well-formed. -/
def returnRow : RawRow :=
  { invoiceNo := 9, description := "R", quantity := -3, unitPrice := 1,
    invoiceDate := 720, customerId := some 7 }

/-- A five-customer RFM table in which all customers share the same
Frequency value. -/
def fiveRFM : List RFMRow :=
  [{ customerId := 1, recency := 1, frequency := 1, monetary := 1 },
   { customerId := 2, recency := 2, frequency := 1, monetary := 2 },
   { customerId := 3, recency := 3, frequency := 1, monetary := 3 },
   { customerId := 4, recency := 4, frequency := 1, monetary := 4 },
   { customerId := 5, recency := 5, frequency := 1, monetary := 5 }]

/-- RFM metrics of customer 2 in `altRaw`. -/
def altRFM1 : RFMRow := { customerId := 2, recency := 2, frequency := 1, monetary := 1 }

/-- RFM metrics of customer 3 in `altRaw`. -/
def altRFM2 : RFMRow := { customerId := 3, recency := 1, frequency := 1, monetary := 2 }

theorem sampleRaw_clean : cleanRows sampleRaw = [sampleClean1, sampleClean2] := by
  norm_num [cleanRows, dropMissingId, sampleRaw, sampleRow1, sampleRow2,
    sampleClean1, sampleClean2, List.filterMap, List.filter]

theorem sampleClean_rfm : rfmTable [sampleClean1, sampleClean2] = [sampleRFM1, sampleRFM2] := by
  norm_num [rfmTable, customersOf, sampleClean1, sampleClean2, sampleRFM1, sampleRFM2,
    recencyOf, frequencyOf, monetaryOf, customerRows, maxInvoiceDate, snapshotDate, maxD,
    minutesPerDay, List.insertionSort, List.orderedInsert, List.dedup, List.filter, Int.fdiv]

theorem sample_rScores : rScores [sampleRFM1, sampleRFM2] = some [1, 5] := by
  norm_num [rScores, sampleRFM1, sampleRFM2, qcut, qcutEdges, quantileSorted,
    strictlyIncreasing, binIndex, List.range_succ, List.insertionSort,
    List.orderedInsert, List.find?]

theorem sample_fScores : fScores [sampleRFM1, sampleRFM2] = some [1, 5] := by
  norm_num [fScores, sampleRFM1, sampleRFM2, qcut, qcutEdges, quantileSorted,
    strictlyIncreasing, binIndex, rankFirst, rankAt, List.countP, List.countP.go,
    List.range_succ, List.insertionSort, List.orderedInsert, List.find?]

theorem sample_mScores : mScores [sampleRFM1, sampleRFM2] = some [1, 5] := by
  norm_num [mScores, sampleRFM1, sampleRFM2, qcut, qcutEdges, quantileSorted,
    strictlyIncreasing, binIndex, List.range_succ, List.insertionSort,
    List.orderedInsert, List.find?]

theorem sample_run : perform_rfm_analysis (cleanRows sampleRaw) =
    some [{ base := sampleRFM1, rScore := 1, fScore := 1, mScore := 1,
            total := 3, segment := "Lost Customers" },
          { base := sampleRFM2, rScore := 5, fScore := 5, mScore := 5,
            total := 15, segment := "Best Customers" }] := by
  rw [sampleRaw_clean]
  norm_num [perform_rfm_analysis, sampleClean_rfm, scoreRFM, sample_rScores,
    sample_fScores, sample_mScores, List.zip, segment_customer]

/-- C1: for every customer record of a completed run, the segment label
is the deterministic step function of the total RFM score alone given by
the four fixed thresholds (>= 13 Best, 10-12 Loyal, 6-9
Potential/At-Risk, < 6 Lost), no other label is ever produced, and the
mapping is monotone in the total score. -/
theorem C1_segment_step_function :
    (∀ (rows : List CleanRow) (t : List ScoredRow) (s : ScoredRow),
      perform_rfm_analysis rows = some t → s ∈ t →
      s.segment = segment_customer s.total ∧
      (13 ≤ s.total → s.segment = "Best Customers") ∧
      (10 ≤ s.total ∧ s.total ≤ 12 → s.segment = "Loyal Customers") ∧
      (6 ≤ s.total ∧ s.total ≤ 9 → s.segment = "Potential/At-Risk") ∧
      (s.total < 6 → s.segment = "Lost Customers") ∧
      s.segment ∈ ["Best Customers", "Loyal Customers", "Potential/At-Risk",
                    "Lost Customers"]) ∧
    (∀ a b : ℤ, a ≤ b →
      segmentRank (segment_customer a) ≤ segmentRank (segment_customer b)) := by
  constructor
  · intro rows t s ht hs
    unfold perform_rfm_analysis scoreRFM at ht
    rcases hr : rScores (rfmTable rows) with _ | rs <;> rw [hr] at ht
    · cases ht
    rcases hf : fScores (rfmTable rows) with _ | fs <;> rw [hf] at ht
    · cases ht
    rcases hm : mScores (rfmTable rows) with _ | ms <;> rw [hm] at ht
    · cases ht
    simp only [Option.some_inj] at ht
    subst ht
    obtain ⟨p, _, rfl⟩ := List.mem_map.mp hs
    refine ⟨rfl, ?_⟩
    unfold segment_customer
    split_ifs <;> refine ⟨?_, ?_, ?_, ?_⟩ <;> simp <;> omega
  · intro a b h
    unfold segment_customer
    split_ifs <;> simp [segmentRank] <;> omega

theorem C1_segment_step_function_witness :
    (∃ t, perform_rfm_analysis (cleanRows sampleRaw) = some t ∧ ∃ s ∈ t,
      s.segment = segment_customer s.total ∧ s.segment = "Lost Customers") ∧
    segmentRank (segment_customer 7) ≤ segmentRank (segment_customer 11) := by
  constructor
  · refine ⟨_, sample_run, ?_⟩
    refine ⟨_, List.mem_cons_self _ _, ?_⟩
    have h := (C1_segment_step_function.1 (cleanRows sampleRaw) _ _ sample_run
      (List.mem_cons_self _ _))
    exact ⟨h.1, h.2.2.2.2.1 (by norm_num)⟩
  · exact C1_segment_step_function.2 7 11 (by norm_num)

/-- C2: every record surviving the cleaning step has positive quantity
and positive unit price, and its derived `Sales` revenue is exactly
quantity times unit price. -/
theorem C2_cleaned_record_valid :
    ∀ (raw : List RawRow) (r : CleanRow), r ∈ cleanRows raw →
      0 < r.quantity ∧ 0 < r.unitPrice ∧ r.sales = (r.quantity : ℚ) * r.unitPrice := by
  intro raw r hr
  unfold cleanRows at hr
  obtain ⟨rc, hrc, rfl⟩ := List.mem_map.mp hr
  have h := (List.mem_filter.mp hrc).2
  simp only [Bool.and_eq_true, decide_eq_true_eq] at h
  exact ⟨h.1, h.2, rfl⟩

theorem C2_cleaned_record_valid_witness :
    0 < sampleClean1.quantity ∧ 0 < sampleClean1.unitPrice ∧
      sampleClean1.sales = (sampleClean1.quantity : ℚ) * sampleClean1.unitPrice :=
  C2_cleaned_record_valid sampleRaw sampleClean1
    (by rw [sampleRaw_clean]; exact List.mem_cons_self _ _)

/-- C6: when the input file is absent the loader returns `None` and the
run stops having written none of the four artifacts; when the file is
present and the pipeline completes, all four artifacts (three charts
and the RFM table file) are written. -/
theorem C6_missing_file_vs_complete_run :
    (clean_and_prepare_data none = none ∧ runMain none = []) ∧
    (∀ rows : List RawRow, (perform_rfm_analysis (cleanRows rows)).isSome →
      runMain (some rows) = allArtifacts) := by
  refine ⟨⟨rfl, rfl⟩, ?_⟩
  intro rows h
  rcases hp : perform_rfm_analysis (cleanRows rows) with _ | t
  · rw [hp] at h; cases h
  · simp [runMain, clean_and_prepare_data, hp]

theorem C6_missing_file_vs_complete_run_witness :
    runMain (some sampleRaw) = allArtifacts :=
  C6_missing_file_vs_complete_run.2 sampleRaw (by rw [sample_run]; rfl)

/-- C10: `segment_customer` is total over all integers: each of the four
labels is produced exactly on its threshold range (so exactly one label
per score), and every score below 6, in particular any value outside
the documented range [3,15], maps to Lost Customers. -/
theorem C10_segment_total_over_int :
    ∀ s : ℤ,
      (segment_customer s = "Best Customers" ↔ 13 ≤ s) ∧
      (segment_customer s = "Loyal Customers" ↔ 10 ≤ s ∧ s ≤ 12) ∧
      (segment_customer s = "Potential/At-Risk" ↔ 6 ≤ s ∧ s ≤ 9) ∧
      (segment_customer s = "Lost Customers" ↔ s < 6) := by
  intro s
  unfold segment_customer
  split_ifs <;> refine ⟨?_, ?_, ?_, ?_⟩ <;> simp <;> omega

theorem maxD_cons {a : ℤ} {l : List ℤ} (h : l ≠ []) : maxD (a :: l) = max a (maxD l) := by
  cases l with
  | nil => exact absurd rfl h
  | cons b l => rfl

theorem le_maxD {l : List ℤ} {x : ℤ} (hx : x ∈ l) : x ≤ maxD l := by
  induction l with
  | nil => cases hx
  | cons a l ih =>
    rcases eq_or_ne l [] with rfl | hl
    · rcases List.mem_cons.mp hx with rfl | h
      · exact le_refl _
      · cases h
    · rw [maxD_cons hl]
      rcases List.mem_cons.mp hx with rfl | h
      · exact le_max_left _ _
      · exact le_trans (ih h) (le_max_right _ _)

theorem maxD_mem {l : List ℤ} (h : l ≠ []) : maxD l ∈ l := by
  induction l with
  | nil => exact absurd rfl h
  | cons a l ih =>
    rcases eq_or_ne l [] with rfl | hl
    · exact List.mem_cons_self _ _
    · rw [maxD_cons hl]
      rcases le_total a (maxD l) with hle | hle
      · rw [max_eq_right hle]
        exact List.mem_cons_of_mem _ (ih hl)
      · rw [max_eq_left hle]
        exact List.mem_cons_self _ _

theorem mem_customersOf {rows : List CleanRow} {c : ℤ} :
    c ∈ customersOf rows ↔ ∃ r ∈ rows, r.customerId = c := by
  unfold customersOf
  rw [(List.perm_insertionSort _ _).mem_iff, List.mem_dedup]
  constructor
  · intro h
    obtain ⟨r, hr, hc⟩ := List.mem_map.mp h
    exact ⟨r, hr, hc⟩
  · intro ⟨r, hr, hc⟩
    exact List.mem_map.mpr ⟨r, hr, hc⟩

theorem customersOf_nodup (rows : List CleanRow) : (customersOf rows).Nodup :=
  (List.perm_insertionSort _ _).symm.nodup (List.nodup_dedup _)

theorem customerRows_maxDate_le {rows : List CleanRow} {c : ℤ}
    (hne : customerRows rows c ≠ []) :
    maxInvoiceDate (customerRows rows c) ≤ maxInvoiceDate rows := by
  unfold maxInvoiceDate
  have hne' : (customerRows rows c).map (fun r => r.invoiceDate) ≠ [] := by
    simpa using hne
  obtain ⟨r, hr, hd⟩ := List.mem_map.mp (maxD_mem hne')
  rw [← hd]
  exact le_maxD (List.mem_map.mpr ⟨r, List.mem_of_mem_filter hr, rfl⟩)

/-- C3: for a non-empty cleaned dataset, the snapshot date is one day
after the maximum transaction timestamp, and consequently every
customer's Recency in the RFM table is at least 1. -/
theorem C3_snapshot_one_day_after_max (rows : List CleanRow) (hne : rows ≠ []) :
    snapshotDate rows = maxInvoiceDate rows + minutesPerDay ∧
    ∀ x ∈ rfmTable rows, 1 ≤ x.recency := by
  refine ⟨rfl, ?_⟩
  intro x hx
  obtain ⟨c, hc, rfl⟩ := List.mem_map.mp hx
  obtain ⟨r, hr, hrc⟩ := mem_customersOf.mp hc
  have hcr : r ∈ customerRows rows c :=
    List.mem_filter.mpr ⟨hr, decide_eq_true hrc⟩
  have hsub : maxInvoiceDate (customerRows rows c) ≤ maxInvoiceDate rows :=
    customerRows_maxDate_le (fun h => by rw [h] at hcr; cases hcr)
  show 1 ≤ recencyOf rows c
  unfold recencyOf snapshotDate minutesPerDay
  rw [Int.fdiv_eq_ediv _ (by norm_num)]
  rw [ge_iff_le.symm, ge_iff_le, Int.le_ediv_iff_mul_le (by norm_num)]
  omega

theorem C3_snapshot_one_day_after_max_witness :
    snapshotDate [sampleClean1, sampleClean2] =
      maxInvoiceDate [sampleClean1, sampleClean2] + minutesPerDay ∧
    ∀ x ∈ rfmTable [sampleClean1, sampleClean2], 1 ≤ x.recency :=
  C3_snapshot_one_day_after_max [sampleClean1, sampleClean2] (by simp)

/-- C7: every customer id appearing in at least one cleaned transaction
appears exactly once as a row of the RFM table, and that row's
Frequency is the count of the customer's distinct invoice numbers while
its Monetary is the sum of the customer's derived line revenues. -/
theorem C7_rfm_row_per_customer :
    ∀ (raw : List RawRow) (c : ℤ),
      (∃ r ∈ cleanRows raw, r.customerId = c) →
      ((rfmTable (cleanRows raw)).map (fun x => x.customerId)).count c = 1 ∧
      ∀ x ∈ rfmTable (cleanRows raw), x.customerId = c →
        x.frequency = ((((cleanRows raw).filter (fun r => decide (r.customerId = c))).map
            (fun r => r.invoiceNo)).dedup).length ∧
        x.monetary = (((cleanRows raw).filter (fun r => decide (r.customerId = c))).map
            (fun r => r.sales)).sum := by
  intro raw c hex
  constructor
  · have hmap : (rfmTable (cleanRows raw)).map (fun x => x.customerId) =
        customersOf (cleanRows raw) := by
      unfold rfmTable
      rw [List.map_map]
      exact List.map_id _
    rw [hmap]
    exact List.count_eq_one_of_mem (customersOf_nodup _) (mem_customersOf.mpr hex)
  · intro x hx hxc
    obtain ⟨c', _, rfl⟩ := List.mem_map.mp hx
    have : c' = c := hxc
    subst this
    exact ⟨rfl, rfl⟩

theorem C7_rfm_row_per_customer_witness :
    ((rfmTable (cleanRows sampleRaw)).map (fun x => x.customerId)).count 1 = 1 :=
  (C7_rfm_row_per_customer sampleRaw 1
    (by rw [sampleRaw_clean]; exact ⟨sampleClean1, List.mem_cons_self _ _, rfl⟩)).1

/-- C8: a raw row dropped by cleaning (missing customer id, or
non-positive quantity or unit price) contributes to nothing downstream:
the cleaned data, the RFM table, the scored output, the monthly revenue
sums (for any calendar-month key) and the per-product revenue sums are
the same as if the row were absent. -/
theorem C8_dropped_row_contributes_nothing :
    ∀ (pre post : List RawRow) (r : RawRow),
      (r.customerId = none ∨ r.quantity ≤ 0 ∨ r.unitPrice ≤ 0) →
      cleanRows (pre ++ r :: post) = cleanRows (pre ++ post) ∧
      rfmTable (cleanRows (pre ++ r :: post)) = rfmTable (cleanRows (pre ++ post)) ∧
      perform_rfm_analysis (cleanRows (pre ++ r :: post)) =
        perform_rfm_analysis (cleanRows (pre ++ post)) ∧
      (∀ month : ℤ → ℤ, monthlySales month (cleanRows (pre ++ r :: post)) =
        monthlySales month (cleanRows (pre ++ post))) ∧
      productSales (cleanRows (pre ++ r :: post)) = productSales (cleanRows (pre ++ post)) := by
  intro pre post r hr
  have hclean : cleanRows (pre ++ r :: post) = cleanRows (pre ++ post) := by
    unfold cleanRows dropMissingId
    rcases hc : r.customerId with _ | c
    · simp [List.filterMap_append, List.filterMap_cons, hc]
    · rcases hr with h | h | h
      · rw [hc] at h; cases h
      · simp [List.filterMap_append, List.filterMap_cons, hc, List.filter_append,
          List.filter_cons, decide_eq_false (not_lt.mpr h)]
      · simp [List.filterMap_append, List.filterMap_cons, hc, List.filter_append,
          List.filter_cons, decide_eq_false (not_lt.mpr h)]
  refine ⟨hclean, by rw [hclean], by rw [hclean], fun month => by rw [hclean], by rw [hclean]⟩

theorem C8_dropped_row_contributes_nothing_witness :
    cleanRows ([sampleRow1] ++ returnRow :: [sampleRow2]) =
      cleanRows ([sampleRow1] ++ [sampleRow2]) ∧
    perform_rfm_analysis (cleanRows ([sampleRow1] ++ returnRow :: [sampleRow2])) =
      perform_rfm_analysis (cleanRows ([sampleRow1] ++ [sampleRow2])) ∧
    productSales (cleanRows ([sampleRow1] ++ returnRow :: [sampleRow2])) =
      productSales (cleanRows ([sampleRow1] ++ [sampleRow2])) := by
  have h := C8_dropped_row_contributes_nothing [sampleRow1] [sampleRow2] returnRow
    (Or.inr (Or.inl (by norm_num [returnRow])))
  exact ⟨h.1, h.2.2.1, h.2.2.2.2⟩

theorem binIndex_lt_five (edges : List ℚ) (v : ℚ) : binIndex edges v < 5 := by
  unfold binIndex
  rcases hf : (List.range 5).find? (fun i => decide (v ≤ edges.getD (i + 1) 0)) with _ | i
  · norm_num
  · simpa using List.mem_range.mp (List.mem_of_find?_eq_some hf)

theorem qcut_sound {xs : List ℚ} {labels out : List ℤ}
    (h : qcut xs labels = some out) :
    strictlyIncreasing (qcutEdges xs) = true ∧
    out = xs.map (fun v => labels.getD (binIndex (qcutEdges xs) v) 0) := by
  unfold qcut at h
  split_ifs at h with hsi
  · exact ⟨hsi, (Option.some_inj.mp h).symm⟩

theorem qcut_mem_labels {xs : List ℚ} {labels out : List ℤ}
    (h : qcut xs labels = some out) (h5 : labels.length = 5) : ∀ y ∈ out, y ∈ labels := by
  intro y hy
  rw [(qcut_sound h).2] at hy
  obtain ⟨v, _, rfl⟩ := List.mem_map.mp hy
  rw [List.getD_eq_getElem _ _ (h5.symm ▸ binIndex_lt_five (qcutEdges xs) v)]
  exact List.getElem_mem _

/-- C4: in a completed run, each of the three per-dimension scores of
every customer lies in [1,5], and the total score is their sum, hence
lies in [3,15]. -/
theorem C4_scores_in_range :
    ∀ (rows : List CleanRow) (t : List ScoredRow) (s : ScoredRow),
      perform_rfm_analysis rows = some t → s ∈ t →
      (1 ≤ s.rScore ∧ s.rScore ≤ 5) ∧ (1 ≤ s.fScore ∧ s.fScore ≤ 5) ∧
      (1 ≤ s.mScore ∧ s.mScore ≤ 5) ∧
      s.total = s.rScore + s.fScore + s.mScore ∧ 3 ≤ s.total ∧ s.total ≤ 15 := by
  intro rows t s ht hs
  unfold perform_rfm_analysis scoreRFM at ht
  rcases hr : rScores (rfmTable rows) with _ | rs <;> rw [hr] at ht
  · cases ht
  rcases hf : fScores (rfmTable rows) with _ | fs <;> rw [hf] at ht
  · cases ht
  rcases hm : mScores (rfmTable rows) with _ | ms <;> rw [hm] at ht
  · cases ht
  simp only [Option.some_inj] at ht
  subst ht
  obtain ⟨p, hp, rfl⟩ := List.mem_map.mp hs
  obtain ⟨base, pr, pf, pm⟩ := p
  obtain ⟨-, hp2⟩ := List.of_mem_zip hp
  obtain ⟨hpr, hp3⟩ := List.of_mem_zip hp2
  obtain ⟨hpf, hpm⟩ := List.of_mem_zip hp3
  have hrmem := qcut_mem_labels hr rfl _ hpr
  have hfmem := qcut_mem_labels hf rfl _ hpf
  have hmmem := qcut_mem_labels hm rfl _ hpm
  simp only [List.mem_cons, List.not_mem_nil, or_false] at hrmem hfmem hmmem
  refine ⟨?_, ?_, ?_, rfl, ?_, ?_⟩ <;> dsimp only <;> omega

theorem C4_scores_in_range_witness :
    ∃ t, perform_rfm_analysis (cleanRows sampleRaw) = some t ∧ ∃ s ∈ t,
      (1 ≤ s.rScore ∧ s.rScore ≤ 5) ∧ 3 ≤ s.total ∧ s.total ≤ 15 := by
  refine ⟨_, sample_run, _, List.mem_cons_self _ _, ?_⟩
  have h := C4_scores_in_range (cleanRows sampleRaw) _ _ sample_run (List.mem_cons_self _ _)
  exact ⟨h.1, h.2.2.2.2.1, h.2.2.2.2.2⟩

theorem C10_segment_total_over_int_witness :
    segment_customer (-7) = "Lost Customers" ∧ segment_customer 20 = "Best Customers" :=
  ⟨((C10_segment_total_over_int (-7)).2.2.2).mpr (by norm_num),
   ((C10_segment_total_over_int 20).1).mpr (by norm_num)⟩

theorem perm_cleanRows {l₁ l₂ : List RawRow} (h : l₁.Perm l₂) :
    (cleanRows l₁).Perm (cleanRows l₂) :=
  (((h.filterMap _).filter _).map _)

theorem perm_maxD {l₁ l₂ : List ℤ} (h : l₁.Perm l₂) : maxD l₁ = maxD l₂ := by
  induction h with
  | nil => rfl
  | cons a h ih =>
    rename_i t₁ t₂
    rcases eq_or_ne t₁ [] with rfl | h1
    · rw [h.symm.eq_nil]
    · have h2 : t₂ ≠ [] := fun he => h1 ((he ▸ h).eq_nil)
      rw [maxD_cons h1, maxD_cons h2, ih]
  | swap a b t =>
    rcases eq_or_ne t [] with rfl | h1
    · exact max_comm _ _
    · rw [maxD_cons (List.cons_ne_nil _ _), maxD_cons (List.cons_ne_nil _ _),
        maxD_cons h1, maxD_cons h1]
      exact max_left_comm _ _ _
  | trans h1 h2 ih1 ih2 => exact ih1.trans ih2

theorem perm_rfmTable {l₁ l₂ : List CleanRow} (h : l₁.Perm l₂) :
    rfmTable l₁ = rfmTable l₂ := by
  have hcust : customersOf l₁ = customersOf l₂ := by
    unfold customersOf
    refine List.eq_of_perm_of_sorted ?_ (List.sorted_insertionSort _ _)
      (List.sorted_insertionSort _ _)
    exact (List.perm_insertionSort _ _).trans
      (((h.map _).dedup).trans (List.perm_insertionSort _ _).symm)
  have hmax : maxInvoiceDate l₁ = maxInvoiceDate l₂ := perm_maxD (h.map _)
  unfold rfmTable
  rw [hcust]
  apply List.map_congr_left
  intro c _
  have hcrows : (customerRows l₁ c).Perm (customerRows l₂ c) := h.filter _
  have hrec : recencyOf l₁ c = recencyOf l₂ c := by
    unfold recencyOf snapshotDate maxInvoiceDate
    unfold maxInvoiceDate at hmax
    rw [hmax, perm_maxD (hcrows.map _)]
  have hfreq : frequencyOf l₁ c = frequencyOf l₂ c := by
    unfold frequencyOf
    exact ((hcrows.map _).dedup).length_eq
  have hmon : monetaryOf l₁ c = monetaryOf l₂ c := by
    unfold monetaryOf
    exact (hcrows.map _).sum_eq
  rw [hrec, hfreq, hmon]

theorem perm_run_eq {l₁ l₂ : List RawRow} (h : l₁.Perm l₂) :
    perform_rfm_analysis (cleanRows l₁) = perform_rfm_analysis (cleanRows l₂) := by
  unfold perform_rfm_analysis
  rw [perm_rfmTable (perm_cleanRows h)]

theorem altRaw_clean : cleanRows altRaw =
    [{ invoiceNo := 1, description := "A", quantity := 1, unitPrice := 1,
       invoiceDate := 0, customerId := 2, sales := 1 },
     { invoiceNo := 2, description := "B", quantity := 1, unitPrice := 2,
       invoiceDate := 1440, customerId := 3, sales := 2 }] := by
  norm_num [cleanRows, dropMissingId, altRaw, List.filterMap, List.filter]

theorem alt_rfm : rfmTable (cleanRows altRaw) = [altRFM1, altRFM2] := by
  rw [altRaw_clean]
  norm_num [rfmTable, customersOf, altRFM1, altRFM2, recencyOf, frequencyOf,
    monetaryOf, customerRows, maxInvoiceDate, snapshotDate, maxD, minutesPerDay,
    List.insertionSort, List.orderedInsert, List.dedup, List.filter, Int.fdiv]

theorem alt_rScores : rScores [altRFM1, altRFM2] = some [1, 5] := by
  norm_num [rScores, altRFM1, altRFM2, qcut, qcutEdges, quantileSorted,
    strictlyIncreasing, binIndex, List.range_succ, List.insertionSort,
    List.orderedInsert, List.find?]

theorem alt_fScores : fScores [altRFM1, altRFM2] = some [1, 5] := by
  norm_num [fScores, altRFM1, altRFM2, qcut, qcutEdges, quantileSorted,
    strictlyIncreasing, binIndex, rankFirst, rankAt, List.countP, List.countP.go,
    List.range_succ, List.insertionSort, List.orderedInsert, List.find?]

theorem alt_mScores : mScores [altRFM1, altRFM2] = some [1, 5] := by
  norm_num [mScores, altRFM1, altRFM2, qcut, qcutEdges, quantileSorted,
    strictlyIncreasing, binIndex, List.range_succ, List.insertionSort,
    List.orderedInsert, List.find?]

theorem alt_run : perform_rfm_analysis (cleanRows altRaw) =
    some [{ base := altRFM1, rScore := 1, fScore := 1, mScore := 1,
            total := 3, segment := "Lost Customers" },
          { base := altRFM2, rScore := 5, fScore := 5, mScore := 5,
            total := 15, segment := "Best Customers" }] := by
  unfold perform_rfm_analysis
  rw [alt_rfm]
  norm_num [scoreRFM, alt_rScores, alt_fScores, alt_mScores, List.zip, segment_customer]

theorem sample_fScoreOf : fScoreOf sampleRaw 2 = some 5 := by
  norm_num [fScoreOf, sample_run, List.find?, sampleRFM1, sampleRFM2, Option.bind]

theorem alt_fScoreOf : fScoreOf altRaw 2 = some 1 := by
  norm_num [fScoreOf, alt_run, List.find?, altRFM1, altRFM2, Option.bind]

theorem sample_freq2 : frequencyOf (cleanRows sampleRaw) 2 = 1 := by
  rw [sampleRaw_clean]
  norm_num [frequencyOf, customerRows, sampleClean1, sampleClean2, List.filter, List.dedup]

theorem alt_freq2 : frequencyOf (cleanRows altRaw) 2 = 1 := by
  rw [altRaw_clean]
  norm_num [frequencyOf, customerRows, List.filter, List.dedup]

/-- C9 counterexample: the claim says two runs on datasets with the same
customers and identical Frequency values but in different row orders can
assign different F_Scores to the same customer.  This is false: the
whole scored output of the pipeline is invariant under any permutation
of the input rows, because `groupby` sorts the customer ids and every
aggregate is order-insensitive. -/
theorem C9_row_order_immaterial :
    ¬ ∃ l₁ l₂ : List RawRow, l₁.Perm l₂ ∧
      perform_rfm_analysis (cleanRows l₁) ≠ perform_rfm_analysis (cleanRows l₂) := by
  rintro ⟨l₁, l₂, hperm, hne⟩
  exact hne (perm_run_eq hperm)

/-- C9 (amended): the F_Score assignment is not a function of a
customer's Frequency value alone — the same customer with the same
Frequency can receive different F_Scores in different datasets, because
first-occurrence ordinal tie-breaking depends on the customer's
position in the id-sorted table (customer 2 scores 5 in `sampleRaw` but
1 in `altRaw`, with Frequency 1 in both) — but row order is immaterial:
permuting the input rows never changes the scored output, and the
F_Score column is a function of the id-sorted Frequency column. -/
theorem C9_fscore_not_function_of_frequency :
    (∀ l₁ l₂ : List RawRow, l₁.Perm l₂ →
      perform_rfm_analysis (cleanRows l₁) = perform_rfm_analysis (cleanRows l₂)) ∧
    (∀ t₁ t₂ : List RFMRow,
      t₁.map (fun r => r.frequency) = t₂.map (fun r => r.frequency) →
      fScores t₁ = fScores t₂) ∧
    (frequencyOf (cleanRows sampleRaw) 2 = 1 ∧ frequencyOf (cleanRows altRaw) 2 = 1 ∧
      fScoreOf sampleRaw 2 = some 5 ∧ fScoreOf altRaw 2 = some 1) := by
  refine ⟨fun l₁ l₂ h => perm_run_eq h, ?_, sample_freq2, alt_freq2,
    sample_fScoreOf, alt_fScoreOf⟩
  intro t₁ t₂ h
  unfold fScores
  have e : ∀ t : List RFMRow, t.map (fun r => ((r.frequency : ℚ))) =
      (t.map (fun r => r.frequency)).map (fun k : ℕ => (k : ℚ)) := by
    intro t
    rw [List.map_map]
    rfl
  rw [e, e, h]

theorem C9_fscore_not_function_of_frequency_witness :
    perform_rfm_analysis (cleanRows [sampleRow1, sampleRow2]) =
      perform_rfm_analysis (cleanRows [sampleRow2, sampleRow1]) ∧
    fScores [sampleRFM1, sampleRFM2] = fScores [altRFM1, altRFM2] :=
  ⟨C9_fscore_not_function_of_frequency.1 _ _ (List.Perm.swap sampleRow2 sampleRow1 []),
   C9_fscore_not_function_of_frequency.2.1 _ _
     (by norm_num [sampleRFM1, sampleRFM2, altRFM1, altRFM2])⟩

theorem countP_split (xs : List ℚ) (f : ℚ → Bool) (p : ℕ) :
    xs.countP f = (xs.take p).countP f + (xs.drop p).countP f := by
  conv_lhs => rw [← List.take_append_drop p xs]
  exact List.countP_append _ _ _

theorem drop_head_eq (xs : List ℚ) (p : ℕ) (hp : p < xs.length) :
    xs.drop p = xs.getD p 0 :: xs.drop (p + 1) := by
  rw [List.getD_eq_getElem _ _ hp]
  exact List.drop_eq_getElem_cons hp

theorem countP_lt_add_eq (xs : List ℚ) (a : ℚ) :
    xs.countP (fun y => decide (y < a)) + xs.countP (fun y => decide (y = a))
      = xs.countP (fun y => decide (y ≤ a)) := by
  induction xs with
  | nil => rfl
  | cons x t ih =>
    rcases lt_trichotomy x a with h | h | h
    · simp [List.countP_cons, h, ne_of_lt h, h.le]
      omega
    · subst h
      simp [List.countP_cons, lt_irrefl]
      omega
    · simp [List.countP_cons, not_lt.mpr h.le, ne_of_gt h, not_le.mpr h]
      omega

theorem rankAt_pos (xs : List ℚ) (p : ℕ) : 1 ≤ rankAt xs p := by
  unfold rankAt
  omega

theorem rankAt_le_length (xs : List ℚ) (p : ℕ) (hp : p < xs.length) :
    rankAt xs p ≤ xs.length := by
  unfold rankAt
  have hsplit := countP_split xs (fun y => decide (y < xs.getD p 0)) p
  rw [drop_head_eq xs p hp, List.countP_cons] at hsplit
  rw [if_neg (by simp only [decide_eq_true_eq]; exact lt_irrefl _)] at hsplit
  have h1 : (xs.take p).countP (fun y => decide (y < xs.getD p 0)) +
      (xs.take p).countP (fun y => decide (y = xs.getD p 0)) ≤ p := by
    rw [countP_lt_add_eq]
    exact le_trans (List.countP_le_length _) (by
      rw [List.length_take]
      omega)
  have h2 : (xs.drop (p + 1)).countP (fun y => decide (y < xs.getD p 0)) ≤
      xs.length - p - 1 := by
    refine le_trans (List.countP_le_length _) ?_
    rw [List.length_drop]
    omega
  omega

theorem rankAt_lt_of_val_lt {xs : List ℚ} {p q : ℕ} (hp : p < xs.length)
    (hv : xs.getD p 0 < xs.getD q 0) : rankAt xs p < rankAt xs q := by
  unfold rankAt
  have hmono : xs.countP (fun y => decide (y ≤ xs.getD p 0)) ≤
      xs.countP (fun y => decide (y < xs.getD q 0)) := by
    refine List.countP_mono_left (fun y _ hy => ?_)
    simp only [decide_eq_true_eq] at hy ⊢
    exact lt_of_le_of_lt hy hv
  have hsplit := countP_lt_add_eq xs (xs.getD p 0)
  have htake : (xs.take p).countP (fun y => decide (y = xs.getD p 0)) + 1 ≤
      xs.countP (fun y => decide (y = xs.getD p 0)) := by
    have h := countP_split xs (fun y => decide (y = xs.getD p 0)) p
    rw [drop_head_eq xs p hp, List.countP_cons,
      if_pos (by simp only [decide_eq_true_eq])] at h
    omega
  have hq' : (xs.take q).countP (fun y => decide (y = xs.getD q 0)) ≥ 0 := Nat.zero_le _
  omega

theorem rankAt_lt_of_eq {xs : List ℚ} {p q : ℕ} (hpq : p < q) (hq : q < xs.length)
    (hv : xs.getD p 0 = xs.getD q 0) : rankAt xs p < rankAt xs q := by
  have hp : p < xs.length := lt_trans hpq hq
  unfold rankAt
  rw [hv]
  have hq' : xs.take q = xs.take p ++ (xs.drop p).take (q - p) := by
    have h := List.take_add xs p (q - p)
    rw [show p + (q - p) = q by omega] at h
    exact h
  have hgrow : (xs.take p).countP (fun y => decide (y = xs.getD q 0)) + 1 ≤
      (xs.take q).countP (fun y => decide (y = xs.getD q 0)) := by
    rw [hq', List.countP_append]
    obtain ⟨rest, hdrop⟩ : ∃ rest, (xs.drop p).take (q - p) = xs.getD p 0 :: rest := by
      obtain ⟨k, hk⟩ : ∃ k, q - p = k + 1 := ⟨q - p - 1, by omega⟩
      rw [drop_head_eq xs p hp, hk, List.take_succ_cons]
      exact ⟨_, rfl⟩
    rw [hdrop, List.countP_cons, if_pos (by simp only [decide_eq_true_eq]; exact hv)]
    omega
  omega

theorem ranks_nat_perm (xs : List ℚ) :
    ((List.range xs.length).map (rankAt xs)).Perm
      ((List.range xs.length).map (fun i => i + 1)) := by
  have hnodup : ((List.range xs.length).map (rankAt xs)).Nodup := by
    refine List.Nodup.map_on ?_ (List.nodup_range _)
    intro p hp q hq hpq
    by_contra hne
    rcases lt_trichotomy (xs.getD p 0) (xs.getD q 0) with h | h | h
    · exact absurd hpq (Nat.ne_of_lt (rankAt_lt_of_val_lt (List.mem_range.mp hp) h))
    · rcases lt_trichotomy p q with hlt | heq | hgt
      · exact absurd hpq (Nat.ne_of_lt (rankAt_lt_of_eq hlt (List.mem_range.mp hq) h))
      · exact hne heq
      · exact absurd hpq.symm
          (Nat.ne_of_lt (rankAt_lt_of_eq hgt (List.mem_range.mp hp) h.symm))
    · exact absurd hpq.symm
        (Nat.ne_of_lt (rankAt_lt_of_val_lt (List.mem_range.mp hq) h))
  have hsub : ((List.range xs.length).map (rankAt xs)) ⊆
      ((List.range xs.length).map (fun i => i + 1)) := by
    intro y hy
    obtain ⟨p, hp, rfl⟩ := List.mem_map.mp hy
    have h1 := rankAt_pos xs p
    have h2 := rankAt_le_length xs p (List.mem_range.mp hp)
    exact List.mem_map.mpr ⟨rankAt xs p - 1, List.mem_range.mpr (by omega), by omega⟩
  exact (List.subperm_of_subset hnodup hsub).perm_of_length_le (by simp)

theorem rankFirst_perm (xs : List ℚ) :
    (rankFirst xs).Perm ((List.range xs.length).map (fun i : ℕ => ((i : ℚ) + 1))) := by
  unfold rankFirst
  have e1 : (List.range xs.length).map (fun p => ((rankAt xs p : ℕ) : ℚ)) =
      ((List.range xs.length).map (rankAt xs)).map (fun k : ℕ => (k : ℚ)) := by
    rw [List.map_map]
    rfl
  have e2 : ((List.range xs.length).map (fun i => i + 1)).map (fun k : ℕ => (k : ℚ)) =
      (List.range xs.length).map (fun i : ℕ => ((i : ℚ) + 1)) := by
    rw [List.map_map]
    refine List.map_congr_left ?_
    intro a _
    simp only [Function.comp]
    push_cast
    ring
  rw [e1, ← e2]
  exact (ranks_nat_perm xs).map _

theorem sort_rankFirst (xs : List ℚ) :
    List.insertionSort (· ≤ ·) (rankFirst xs) =
      (List.range xs.length).map (fun i : ℕ => ((i : ℚ) + 1)) := by
  refine List.eq_of_perm_of_sorted
    ((List.perm_insertionSort _ _).trans (rankFirst_perm xs))
    (List.sorted_insertionSort _ _) ?_
  refine List.Pairwise.map _ ?_ (List.pairwise_lt_range xs.length)
  intro a b hab
  have : (a : ℚ) ≤ (b : ℚ) := by exact_mod_cast hab.le
  linarith

theorem getD_ranks (n j : ℕ) (hj : j < n) :
    ((List.range n).map (fun i : ℕ => ((i : ℚ) + 1))).getD j 0 = (j : ℚ) + 1 := by
  rw [List.getD_eq_getElem?_getD, List.getElem?_map, List.getElem?_range hj]
  rfl

theorem quantileSorted_ranks (n : ℕ) (hn : 1 ≤ n) (p : ℚ) (hp0 : 0 ≤ p) (hp1 : p ≤ 1) :
    quantileSorted ((List.range n).map (fun i : ℕ => ((i : ℚ) + 1))) p
      = 1 + p * ((n : ℚ) - 1) := by
  have hlen : ((List.range n).map (fun i : ℕ => ((i : ℚ) + 1))).length = n := by simp
  have hm : (0 : ℚ) ≤ (n : ℚ) - 1 := by
    have : (1 : ℚ) ≤ (n : ℚ) := by exact_mod_cast hn
    linarith
  have h0 : 0 ≤ p * ((n : ℚ) - 1) := mul_nonneg hp0 hm
  have hub : p * ((n : ℚ) - 1) ≤ (n : ℚ) - 1 := mul_le_of_le_one_left hm hp1
  have hfl0 : 0 ≤ ⌊p * ((n : ℚ) - 1)⌋ := Int.floor_nonneg.mpr h0
  have hcast : (((⌊p * ((n : ℚ) - 1)⌋.toNat : ℕ)) : ℚ) = ((⌊p * ((n : ℚ) - 1)⌋ : ℤ) : ℚ) := by
    exact_mod_cast Int.toNat_of_nonneg hfl0
  have hjle : (((⌊p * ((n : ℚ) - 1)⌋.toNat : ℕ)) : ℚ) ≤ p * ((n : ℚ) - 1) := by
    rw [hcast]
    exact Int.floor_le _
  have hjgt : p * ((n : ℚ) - 1) < (((⌊p * ((n : ℚ) - 1)⌋.toNat : ℕ)) : ℚ) + 1 := by
    rw [hcast]
    exact Int.lt_floor_add_one _
  simp only [quantileSorted, hlen]
  by_cases hcase : ⌊p * ((n : ℚ) - 1)⌋.toNat + 1 < n
  · rw [if_pos hcase, getD_ranks n _ (by omega), getD_ranks n _ hcase]
    push_cast
    ring
  · rw [if_neg hcase]
    have hjn : ⌊p * ((n : ℚ) - 1)⌋.toNat ≤ n - 1 := by
      by_contra hc
      have h1 : (n : ℚ) - 1 < (((⌊p * ((n : ℚ) - 1)⌋.toNat : ℕ)) : ℚ) := by
        have h2 : n ≤ ⌊p * ((n : ℚ) - 1)⌋.toNat := by omega
        have h3 : (n : ℚ) ≤ (((⌊p * ((n : ℚ) - 1)⌋.toNat : ℕ)) : ℚ) := by exact_mod_cast h2
        linarith
      linarith
    have hjeq : ⌊p * ((n : ℚ) - 1)⌋.toNat = n - 1 := by omega
    have hhi : p * ((n : ℚ) - 1) = (n : ℚ) - 1 := by
      have h1 : (((n - 1 : ℕ)) : ℚ) ≤ p * ((n : ℚ) - 1) := hjeq ▸ hjle
      have h2 : (((n - 1 : ℕ)) : ℚ) = (n : ℚ) - 1 := by
        push_cast [Nat.cast_sub hn]
        ring
      linarith
    rw [getD_ranks n (n - 1) (by omega), hhi]
    push_cast [Nat.cast_sub hn]
    ring

theorem qcutEdges_ranks (xs : List ℚ) (hn : 1 ≤ xs.length) :
    qcutEdges (rankFirst xs) =
      (List.range 6).map (fun i : ℕ => 1 + ((i : ℚ) / 5) * ((xs.length : ℚ) - 1)) := by
  unfold qcutEdges
  apply List.map_congr_left
  intro i hi
  have hi5 : i < 6 := List.mem_range.mp hi
  rw [sort_rankFirst xs]
  exact quantileSorted_ranks xs.length hn ((i : ℚ) / 5) (by positivity) (by
    rw [div_le_one (by norm_num)]
    exact_mod_cast Nat.le_of_lt_succ hi5)

theorem edges_strict (n : ℕ) (hn : 2 ≤ n) :
    strictlyIncreasing ((List.range 6).map
      (fun i : ℕ => 1 + ((i : ℚ) / 5) * ((n : ℚ) - 1))) = true := by
  have hm : (1 : ℚ) ≤ (n : ℚ) - 1 := by
    have : (2 : ℚ) ≤ (n : ℚ) := by exact_mod_cast hn
    linarith
  rw [show List.range 6 = [0, 1, 2, 3, 4, 5] from rfl]
  simp only [List.map_cons, List.map_nil, strictlyIncreasing, Bool.and_eq_true,
    decide_eq_true_eq, and_true]
  refine ⟨?_, ?_, ?_, ?_, ?_⟩ <;> push_cast <;> linarith

theorem getD_edges (n j : ℕ) (hj : j < 6) :
    ((List.range 6).map (fun i : ℕ => 1 + ((i : ℚ) / 5) * ((n : ℚ) - 1))).getD j 0
      = 1 + ((j : ℚ) / 5) * ((n : ℚ) - 1) := by
  rw [List.getD_eq_getElem?_getD, List.getElem?_map, List.getElem?_range hj]
  rfl

theorem rank_le_edge_iff (n w i : ℕ) (hn : 1 ≤ n) (hi : i < 5) :
    (((1 + w : ℕ) : ℚ) ≤ ((List.range 6).map
        (fun j : ℕ => 1 + ((j : ℚ) / 5) * ((n : ℚ) - 1))).getD (i + 1) 0)
      ↔ 5 * w ≤ (i + 1) * (n - 1) := by
  rw [getD_edges n (i + 1) (by omega)]
  rw [show ((n : ℚ) - 1) = ((n - 1 : ℕ) : ℚ) by push_cast [Nat.cast_sub hn]; ring]
  constructor
  · intro h
    push_cast at h
    have h5 : ((5 * w : ℕ) : ℚ) ≤ (((i + 1) * (n - 1) : ℕ) : ℚ) := by
      push_cast
      linarith
    exact_mod_cast h5
  · intro h
    have h5 : ((5 * w : ℕ) : ℚ) ≤ (((i + 1) * (n - 1) : ℕ) : ℚ) := by exact_mod_cast h
    push_cast at h5 ⊢
    linarith

theorem find?_range5_eq (f : ℕ → Bool) (k : ℕ) (hk : k < 5) (ht : f k = true)
    (hf : ∀ i, i < k → f i = false) : (List.range 5).find? f = some k := by
  rw [show List.range 5 = [0, 1, 2, 3, 4] from rfl]
  interval_cases k
  · simp [List.find?_cons, ht]
  · simp [List.find?_cons, ht, hf 0 (by norm_num)]
  · simp [List.find?_cons, ht, hf 0 (by norm_num), hf 1 (by norm_num)]
  · simp [List.find?_cons, ht, hf 0 (by norm_num), hf 1 (by norm_num), hf 2 (by norm_num)]
  · simp [List.find?_cons, ht, hf 0 (by norm_num), hf 1 (by norm_num), hf 2 (by norm_num),
      hf 3 (by norm_num)]

theorem binIndex_ranks (n k w : ℕ) (hn : 1 ≤ n) (hk : k < 5)
    (hup : 5 * w ≤ (k + 1) * (n - 1))
    (hdown : ∀ i, i < k → ¬ (5 * w ≤ (i + 1) * (n - 1))) :
    binIndex ((List.range 6).map (fun j : ℕ => 1 + ((j : ℚ) / 5) * ((n : ℚ) - 1)))
      (((1 + w : ℕ) : ℚ)) = k := by
  unfold binIndex
  have hfind := find?_range5_eq
    (fun i => decide ((((1 + w : ℕ) : ℚ)) ≤ ((List.range 6).map
      (fun j : ℕ => 1 + ((j : ℚ) / 5) * ((n : ℚ) - 1))).getD (i + 1) 0))
    k hk
    (decide_eq_true ((rank_le_edge_iff n w k hn hk).mpr hup))
    (fun i hi => decide_eq_false (fun hc =>
      hdown i hi ((rank_le_edge_iff n w i hn (by omega)).mp hc)))
  rw [hfind]
  rfl

theorem fScores_succeeds (t : List RFMRow) (hn : 2 ≤ t.length) :
    strictlyIncreasing (qcutEdges (rankFirst (t.map (fun r => ((r.frequency : ℚ)))))) = true := by
  have hlen : (t.map (fun r => ((r.frequency : ℚ)))).length = t.length := by simp
  rw [qcutEdges_ranks _ (by omega), hlen]
  exact edges_strict t.length hn

theorem fScores_five_nonempty (t : List RFMRow) (hn5 : 5 ≤ t.length) :
    ∃ out, fScores t = some out ∧ ∀ s ∈ ([1, 2, 3, 4, 5] : List ℤ), s ∈ out := by
  have hlen : (t.map (fun r => ((r.frequency : ℚ)))).length = t.length := by simp
  have hsi := fScores_succeeds t (by omega)
  refine ⟨_, by unfold fScores qcut; rw [if_pos hsi], ?_⟩
  intro s hs
  have hedges := qcutEdges_ranks (t.map (fun r => ((r.frequency : ℚ)))) (by omega)
  rw [hlen] at hedges
  have hmem5 : ∀ w : ℕ, w < t.length →
      (((1 + w : ℕ) : ℚ)) ∈ rankFirst (t.map (fun r => ((r.frequency : ℚ)))) := by
    intro w hw
    refine (rankFirst_perm _).mem_iff.mpr (List.mem_map.mpr ⟨w, ?_, by push_cast; ring⟩)
    rw [hlen]
    exact List.mem_range.mpr hw
  have hbin : ∀ k w : ℕ, k < 5 → w < t.length →
      5 * w ≤ (k + 1) * (t.length - 1) →
      (∀ i, i < k → ¬ (5 * w ≤ (i + 1) * (t.length - 1))) →
      (([1, 2, 3, 4, 5] : List ℤ).getD
        (binIndex (qcutEdges (rankFirst (t.map (fun r => ((r.frequency : ℚ))))))
          (((1 + w : ℕ) : ℚ))) 0) = ([1, 2, 3, 4, 5] : List ℤ).getD k 0 := by
    intro k w hk hw hup hdown
    rw [hedges, binIndex_ranks t.length k w (by omega) hk hup hdown]
  simp only [List.mem_cons, List.not_mem_nil, or_false] at hs
  rcases hs with rfl | rfl | rfl | rfl | rfl
  · refine List.mem_map.mpr ⟨((1 + 0 : ℕ) : ℚ), hmem5 0 (by omega), ?_⟩
    rw [hbin 0 0 (by omega) (by omega) (by omega) (fun i hi => by omega)]
    rfl
  · refine List.mem_map.mpr ⟨((1 + 2 * (t.length - 1) / 5 : ℕ) : ℚ),
      hmem5 _ (by omega), ?_⟩
    rw [hbin 1 _ (by omega) (by omega) (by omega) (fun i hi => by interval_cases i <;> omega)]
    rfl
  · refine List.mem_map.mpr ⟨((1 + 3 * (t.length - 1) / 5 : ℕ) : ℚ),
      hmem5 _ (by omega), ?_⟩
    rw [hbin 2 _ (by omega) (by omega) (by omega) (fun i hi => by interval_cases i <;> omega)]
    rfl
  · refine List.mem_map.mpr ⟨((1 + 4 * (t.length - 1) / 5 : ℕ) : ℚ),
      hmem5 _ (by omega), ?_⟩
    rw [hbin 3 _ (by omega) (by omega) (by omega) (fun i hi => by interval_cases i <;> omega)]
    rfl
  · refine List.mem_map.mpr ⟨((1 + 5 * (t.length - 1) / 5 : ℕ) : ℚ),
      hmem5 _ (by omega), ?_⟩
    rw [hbin 4 _ (by omega) (by omega) (by omega) (fun i hi => by interval_cases i <;> omega)]
    rfl

/-- C5 (amended): every quintile cut either labels each customer with
one of its 5 given labels or the run fails explicitly (the raised
`ValueError`, modelled as `none`); for the Frequency dimension the
stable ordinal tie-break makes the cut succeed whenever there are at
least 2 customers, and with at least 5 customers it produces 5
non-empty bins even when all customers share the same frequency value.
With 2 to 4 customers the frequency cut succeeds but necessarily leaves
some of the 5 bins empty (see the counterexample). -/
theorem C5_five_bins_or_explicit_failure :
    (∀ (xs : List ℚ) (labels out : List ℤ), qcut xs labels = some out →
      labels.length = 5 → ∀ y ∈ out, y ∈ labels) ∧
    (∀ t : List RFMRow, 2 ≤ t.length → (fScores t).isSome = true) ∧
    (∀ t : List RFMRow, 5 ≤ t.length →
      ∃ out, fScores t = some out ∧ ∀ s ∈ ([1, 2, 3, 4, 5] : List ℤ), s ∈ out) := by
  refine ⟨fun xs labels out h h5 => qcut_mem_labels h h5, ?_, fScores_five_nonempty⟩
  intro t ht
  have hsi := fScores_succeeds t ht
  unfold fScores qcut
  rw [if_pos hsi]
  rfl

/-- C5 counterexample: in `sampleRaw` both customers share Frequency 1,
the maximal amount of tying, yet the frequency cut succeeds (no
explicit failure) and only bins 1 and 5 are occupied — bins 2, 3 and 4
are empty, so the tie-break does not guarantee 5 non-empty bins. -/
theorem C5_five_bins_counterexample :
    (rfmTable (cleanRows sampleRaw)).map (fun r => r.frequency) = [1, 1] ∧
    fScores (rfmTable (cleanRows sampleRaw)) = some [1, 5] ∧
    ((2 : ℤ) ∈ ([1, 5] : List ℤ) → False) := by
  rw [sampleRaw_clean, sampleClean_rfm]
  refine ⟨by norm_num [sampleRFM1, sampleRFM2], sample_fScores, by norm_num⟩

theorem C5_five_bins_or_explicit_failure_witness :
    ((1 : ℤ) ∈ ([1, 2, 3, 4, 5] : List ℤ)) ∧
    (fScores [sampleRFM1, sampleRFM2]).isSome = true ∧
    (∃ out, fScores fiveRFM = some out ∧ ∀ s ∈ ([1, 2, 3, 4, 5] : List ℤ), s ∈ out) :=
  ⟨C5_five_bins_or_explicit_failure.1 _ _ _ sample_fScores rfl 1 (by norm_num),
   C5_five_bins_or_explicit_failure.2.1 [sampleRFM1, sampleRFM2] (by norm_num),
   C5_five_bins_or_explicit_failure.2.2 fiveRFM (by norm_num [fiveRFM])⟩

end SalesRFM
